import Mathlib

/-!
Verification development for the `Message` frame codec of
`src/headers/message.hpp` (EchoPlusPlus).

The codec stores one wire unit in a fixed buffer `char data[4 + 512]`
together with a `size_t bodyLength_` field.  We model bytes as `Nat`
(char codes), the buffer as a `List Nat`, and `size_t` / `int`
conversions explicitly modulo `2^64` / `2^32`.
-/

set_option maxRecDepth 100000

namespace EchoPP

/-- Size of the header in bytes (`enum { header = 4 }` in the source). -/
def header : Nat := 4

/-- Maximum size of the message body in bytes (`enum { maxBytes = 512 }`). -/
def maxBytes : Nat := 512

/-- Total capacity of the frame buffer: `char data[header + maxBytes]`. -/
def bufCap : Nat := header + maxBytes

/-- C `isspace` on a byte value: space or one of the control chars 9..13. -/
def isSpaceB (c : Nat) : Bool := c == 32 || (decide (9 ≤ c) && decide (c ≤ 13))

/-- ASCII decimal digit test on a byte value. -/
def isDigitB (c : Nat) : Bool := decide (48 ≤ c) && decide (c ≤ 57)

/-- Accumulate the numeric value of a run of ASCII digit bytes. -/
def digitsVal (l : List Nat) : Nat := l.foldl (fun a c => a * 10 + (c - 48)) 0

/-- C `atoi` on a byte sequence: skip leading whitespace, read an optional
sign (`-` = 45, `+` = 43), then accumulate the longest run of decimal
digits; the result is 0 when no digits are found. -/
def atoi (s : List Nat) : Int :=
  match s.dropWhile isSpaceB with
  | [] => 0
  | c :: rest =>
    if c = 45 then - (digitsVal (rest.takeWhile isDigitB) : Int)
    else if c = 43 then (digitsVal (rest.takeWhile isDigitB) : Int)
    else (digitsVal ((c :: rest).takeWhile isDigitB) : Int)

/-- Fuel-driven digit extraction; the fuel only forces structural
recursion and is irrelevant once it exceeds the argument. -/
def natDecDigitsAux : Nat → Nat → List Nat
  | 0, _ => []
  | fuel + 1, n =>
    if n < 10 then [48 + n] else natDecDigitsAux fuel (n / 10) ++ [48 + n % 10]

/-- ASCII decimal digit bytes of a natural number, most significant first. -/
def natDecDigits (n : Nat) : List Nat := natDecDigitsAux (n + 1) n

/-- Decimal representation of an int value as ASCII bytes, with a leading
`-` byte (45) for negative values. -/
def decRepr (v : Int) : List Nat :=
  if v < 0 then 45 :: natDecDigits (-v).toNat else natDecDigits v.toNat

/-- `sprintf "%4d"` on an int value: the decimal representation,
left-padded with spaces to a minimum field width of 4. -/
def fmt4d (v : Int) : List Nat :=
  List.replicate (4 - (decRepr v).length) 32 ++ decRepr v

/-- Conversion of a `size_t`-ranged value to C `int` (two's complement,
32-bit), as in `static_cast<int>(bodyLength_)` and `int length = ...`. -/
def toInt32 (n : Nat) : Int :=
  if n % 2 ^ 32 < 2 ^ 31 then ((n % 2 ^ 32 : Nat) : Int)
  else ((n % 2 ^ 32 : Nat) : Int) - 2 ^ 32

/-- Conversion of a C `int` value to `size_t` (reduction modulo `2^64`). -/
def toSize (i : Int) : Nat := (i % (2 ^ 64 : Int)).toNat

/-- The frame state: the fixed buffer `char data[516]` and the
`size_t bodyLength_` field. -/
structure Message where
  data : List Nat
  bodyLength_ : Nat
deriving DecidableEq, Repr

/-- `Message::getNewBodyLength`: the payload length capped at `maxBytes`. -/
def getNewBodyLength (message : List Nat) : Nat :=
  if message.length > maxBytes then maxBytes else message.length

/-- `Message::encodeHeader`: `sprintf(new_header, "%4d", (int)bodyLength_)`
followed by `memcpy(data, new_header, 4)` — overwrite the first 4 buffer
bytes with the formatted length. -/
def Message.encodeHeader (m : Message) : Message :=
  { m with data := (fmt4d (toInt32 m.bodyLength_)).take header ++ m.data.drop header }

/-- `Message::Message(std::string)`: compute the capped body length,
encode the header, then `memcpy(data + header, message.c_str(), bodyLength_)`.
`junk` is the indeterminate initial content of the stack buffer. -/
def mkMessage (junk : List Nat) (message : List Nat) : Message :=
  let bl := getNewBodyLength message
  let m1 : Message := { data := junk, bodyLength_ := bl }
  let m2 := m1.encodeHeader
  { m2 with data := m2.data.take header ++ message.take bl ++ m2.data.drop (header + bl) }

/-- `Message::decodeHeader`: `atoi` the first 4 buffer bytes; if the value
exceeds `maxBytes` reset `bodyLength_` to 0 and report failure, otherwise
store the value (converted `int` → `size_t`) and report success. -/
def Message.decodeHeader (m : Message) : Bool × Message :=
  let headerValue := atoi (m.data.take header)
  if headerValue > (maxBytes : Int) then (false, { m with bodyLength_ := 0 })
  else (true, { m with bodyLength_ := toSize headerValue })

/-- `Message::getData`: `int length = header + bodyLength_;` then
`std::string(data, length)` — the first `length` buffer bytes, with the
`size_t` addition, the narrowing to `int` and the widening of the string
constructor's count back to `size_t` made explicit. -/
def Message.getData (m : Message) : List Nat :=
  m.data.take (toSize (toInt32 ((header + m.bodyLength_) % 2 ^ 64)))

/-- `std::string::substr(pos, count)`: `none` models the
`std::out_of_range` exception raised when `pos` exceeds the size. -/
def substr (s : List Nat) (pos count : Nat) : Option (List Nat) :=
  if s.length < pos then none else some ((s.drop pos).take count)

/-- `Message::getBody`: `getData().substr(header, bodyLength_)`. -/
def Message.getBody (m : Message) : Option (List Nat) :=
  substr m.getData header m.bodyLength_

/-- `Message::getBodyLength`. -/
def Message.getBodyLength (m : Message) : Nat := m.bodyLength_

/-! ### Helper lemmas about digit strings and `atoi` -/

theorem natDecDigitsAux_congr (n : Nat) :
    ∀ f g, n < f → n < g → natDecDigitsAux f n = natDecDigitsAux g n := by
  induction n using Nat.strong_induction_on with
  | _ n ih =>
    intro f g hf hg
    cases f with
    | zero => omega
    | succ f =>
      cases g with
      | zero => omega
      | succ g =>
        simp only [natDecDigitsAux]
        split
        · rfl
        · rename_i h
          have hlt : n / 10 < n := Nat.div_lt_self (by omega) (by omega)
          rw [ih (n / 10) hlt f g (by omega) (by omega)]

/-- The recurrence actually satisfied by `natDecDigits`. -/
theorem natDecDigits_rec (n : Nat) :
    natDecDigits n = if n < 10 then [48 + n] else natDecDigits (n / 10) ++ [48 + n % 10] := by
  show natDecDigitsAux (n + 1) n = _
  simp only [natDecDigitsAux]
  split
  · rfl
  · rename_i h
    have hlt : n / 10 < n := Nat.div_lt_self (by omega) (by omega)
    rw [natDecDigitsAux_congr (n / 10) n (n / 10 + 1) (by omega) (by omega)]
    rfl

theorem natDecDigits_mem (n : Nat) : ∀ c ∈ natDecDigits n, 48 ≤ c ∧ c ≤ 57 := by
  induction n using Nat.strong_induction_on with
  | _ n ih =>
    rw [natDecDigits_rec]
    split
    · rename_i h
      intro c hc
      simp only [List.mem_singleton] at hc
      omega
    · rename_i h
      intro c hc
      rw [List.mem_append] at hc
      rcases hc with hc | hc
      · exact ih (n / 10) (Nat.div_lt_self (by omega) (by omega)) c hc
      · simp only [List.mem_singleton] at hc
        have := Nat.mod_lt n (show 0 < 10 by omega)
        omega

theorem natDecDigits_ne_nil (n : Nat) : natDecDigits n ≠ [] := by
  rw [natDecDigits_rec]
  split
  · simp
  · simp

theorem digitsVal_append (l : List Nat) (c : Nat) :
    digitsVal (l ++ [c]) = digitsVal l * 10 + (c - 48) := by
  simp [digitsVal, List.foldl_append]

theorem digitsVal_natDecDigits (n : Nat) : digitsVal (natDecDigits n) = n := by
  induction n using Nat.strong_induction_on with
  | _ n ih =>
    rw [natDecDigits_rec]
    split
    · rename_i h
      simp only [digitsVal, List.foldl_cons, List.foldl_nil]
      omega
    · rename_i h
      rw [digitsVal_append, ih (n / 10) (Nat.div_lt_self (by omega) (by omega))]
      omega

theorem natDecDigits_length_le (k : Nat) :
    ∀ n, n < 10 ^ k → 1 ≤ k → (natDecDigits n).length ≤ k := by
  induction k with
  | zero => intro n h h1; omega
  | succ k ih =>
    intro n h _
    rw [natDecDigits_rec]
    split
    · simp
    · rename_i hn
      have hk : 1 ≤ k := by
        by_contra hk0
        have hk' : k = 0 := by omega
        subst hk'
        norm_num at h
        omega
      have hd : n / 10 < 10 ^ k := by
        rw [Nat.div_lt_iff_lt_mul (show 0 < 10 by omega)]
        rw [pow_succ] at h
        exact h
      have := ih (n / 10) hd hk
      simp only [List.length_append, List.length_cons, List.length_nil]
      omega

theorem isSpaceB_false {c : Nat} (h : 48 ≤ c) : isSpaceB c = false := by
  simp only [isSpaceB, Bool.or_eq_false_iff, Bool.and_eq_false_iff, beq_eq_false_iff_ne,
    ne_eq, decide_eq_false_iff_not, not_le]
  omega

theorem isDigitB_true {c : Nat} (h1 : 48 ≤ c) (h2 : c ≤ 57) : isDigitB c = true := by
  simp only [isDigitB, Bool.and_eq_true, decide_eq_true_eq]
  omega

theorem dropWhile_replicate_space (k : Nat) (l : List Nat) :
    (List.replicate k 32 ++ l).dropWhile isSpaceB = l.dropWhile isSpaceB := by
  induction k with
  | zero => simp
  | succ k ih =>
    rw [List.replicate_succ, List.cons_append, List.dropWhile_cons,
      if_pos (show isSpaceB 32 = true from rfl)]
    exact ih

theorem takeWhile_digits (l : List Nat) (h : ∀ c ∈ l, isDigitB c = true) :
    l.takeWhile isDigitB = l := by
  induction l with
  | nil => rfl
  | cons a t ih =>
    rw [List.takeWhile_cons, if_pos (h a (by simp))]
    rw [ih (fun c hc => h c (by simp [hc]))]

/-- `atoi` on space padding followed by digit bytes reads off the digits. -/
theorem atoi_spaces_digits (k : Nat) (l : List Nat) (hne : l ≠ [])
    (hdig : ∀ c ∈ l, 48 ≤ c ∧ c ≤ 57) :
    atoi (List.replicate k 32 ++ l) = (digitsVal l : Int) := by
  obtain ⟨c, rest, rfl⟩ := List.exists_cons_of_ne_nil hne
  have hc := hdig c (by simp)
  have hdrop : (List.replicate k 32 ++ c :: rest).dropWhile isSpaceB = c :: rest := by
    rw [dropWhile_replicate_space, List.dropWhile_cons, if_neg]
    simp only [isSpaceB_false hc.1]
    simp
  simp only [atoi, hdrop]
  rw [if_neg (by omega), if_neg (by omega)]
  rw [takeWhile_digits _ (fun x hx => isDigitB_true (hdig x hx).1 (hdig x hx).2)]

theorem decRepr_nat (n : Nat) : decRepr (n : Int) = natDecDigits n := by
  unfold decRepr
  rw [if_neg (not_lt.mpr (Int.natCast_nonneg n)), Int.toNat_natCast]

theorem fmt4d_length_ge (v : Int) : 4 ≤ (fmt4d v).length := by
  simp only [fmt4d, List.length_append, List.length_replicate]
  omega

theorem fmt4d_nat_eq (n : Nat) (h : n ≤ 9999) :
    (fmt4d (n : Int)).take 4
      = List.replicate (4 - (natDecDigits n).length) 32 ++ natDecDigits n := by
  have hlen : (natDecDigits n).length ≤ 4 :=
    natDecDigits_length_le 4 n (by norm_num; omega) (by omega)
  rw [fmt4d, decRepr_nat, List.take_of_length_le]
  simp only [List.length_append, List.length_replicate]
  omega

/-- Parsing a `%4d`-formatted value in `[0, 9999]` recovers the value. -/
theorem atoi_fmt4d (n : Nat) (h : n ≤ 9999) :
    atoi ((fmt4d (n : Int)).take 4) = (n : Int) := by
  rw [fmt4d_nat_eq n h,
    atoi_spaces_digits _ _ (natDecDigits_ne_nil n) (natDecDigits_mem n),
    digitsVal_natDecDigits]

/-! ### Helper lemmas about the integer conversions -/

theorem toInt32_small {n : Nat} (h : n < 2 ^ 31) : toInt32 n = (n : Int) := by
  unfold toInt32
  rw [Nat.mod_eq_of_lt (by omega), if_pos h]

theorem toSize_natCast {n : Nat} (h : n < 2 ^ 64) : toSize ((n : Nat) : Int) = n := by
  unfold toSize
  rw [Int.emod_eq_of_lt (Int.natCast_nonneg n) (by exact_mod_cast h), Int.toNat_natCast]

/-! ### Structural lemmas about the frame operations -/

theorem take_append_len {α : Type} (l₁ l₂ : List α) (n : Nat) (h : l₁.length = n) :
    (l₁ ++ l₂).take n = l₁ := by
  subst h
  exact List.take_left _ _

theorem drop_append_len {α : Type} (l₁ l₂ : List α) (n m : Nat) (h : l₁.length = n) :
    (l₁ ++ l₂).drop (n + m) = l₂.drop m := by
  subst h
  exact List.drop_append m

theorem getNewBodyLength_le (p : List Nat) : getNewBodyLength p ≤ 512 := by
  unfold getNewBodyLength maxBytes
  split <;> omega

theorem getNewBodyLength_of_le (p : List Nat) (h : p.length ≤ 512) :
    getNewBodyLength p = p.length := by
  unfold getNewBodyLength maxBytes
  rw [if_neg (by omega)]

theorem getNewBodyLength_of_gt (p : List Nat) (h : p.length > 512) :
    getNewBodyLength p = 512 := by
  unfold getNewBodyLength maxBytes
  rw [if_pos (by omega)]

theorem fmt4d_take_length (v : Int) : ((fmt4d v).take 4).length = 4 := by
  rw [List.length_take]
  have := fmt4d_length_ge v
  omega

theorem encodeHeader_data (m : Message) :
    m.encodeHeader.data = (fmt4d (toInt32 m.bodyLength_)).take 4 ++ m.data.drop 4 := rfl

theorem encodeHeader_bodyLength (m : Message) :
    m.encodeHeader.bodyLength_ = m.bodyLength_ := rfl

theorem mkMessage_bodyLength (junk p : List Nat) :
    (mkMessage junk p).bodyLength_ = getNewBodyLength p := rfl

/-- The buffer of a constructed frame: the 4 header bytes, the copied
body prefix, then whatever indeterminate bytes were already there. -/
theorem mkMessage_data (junk p : List Nat) :
    (mkMessage junk p).data =
      (fmt4d (toInt32 (getNewBodyLength p))).take 4
        ++ (p.take (getNewBodyLength p) ++ junk.drop (4 + getNewBodyLength p)) := by
  have hH := fmt4d_take_length (toInt32 (getNewBodyLength p))
  show ((fmt4d (toInt32 (getNewBodyLength p))).take 4 ++ junk.drop 4).take 4
      ++ p.take (getNewBodyLength p)
      ++ ((fmt4d (toInt32 (getNewBodyLength p))).take 4 ++ junk.drop 4).drop
        (4 + getNewBodyLength p) = _
  rw [take_append_len _ _ _ hH, drop_append_len _ _ _ _ hH, List.drop_drop,
    List.append_assoc]

/-- Decoding the header of a freshly constructed frame always succeeds
and recovers the capped body length. -/
theorem decode_mkMessage (junk p : List Nat) :
    (mkMessage junk p).decodeHeader =
      (true, { mkMessage junk p with bodyLength_ := getNewBodyLength p }) := by
  have hble := getNewBodyLength_le p
  have hH := fmt4d_take_length (toInt32 (getNewBodyLength p))
  have htake : (mkMessage junk p).data.take 4 = (fmt4d (toInt32 (getNewBodyLength p))).take 4 := by
    rw [mkMessage_data]
    exact take_append_len _ _ _ hH
  have hatoi : atoi ((mkMessage junk p).data.take 4) = (getNewBodyLength p : Int) := by
    rw [htake, toInt32_small (by omega)]
    exact atoi_fmt4d _ (by omega)
  unfold Message.decodeHeader
  simp only [header, maxBytes]
  rw [hatoi, if_neg (by omega), toSize_natCast (by omega)]

theorem drop_append_len0 {α : Type} (l₁ l₂ : List α) (n : Nat) (h : l₁.length = n) :
    (l₁ ++ l₂).drop n = l₂ := by
  subst h
  exact List.drop_left _ _

/-- `atoi` yields 0 on input holding no ASCII digit at all. -/
theorem atoi_no_digits (s : List Nat) (h : ∀ c ∈ s, isDigitB c = false) : atoi s = 0 := by
  have hsub : ∀ c ∈ s.dropWhile isSpaceB, isDigitB c = false := by
    intro c hc
    exact h c ((List.dropWhile_sublist isSpaceB).subset hc)
  have htake : ∀ l : List Nat, (∀ x ∈ l, isDigitB x = false) → l.takeWhile isDigitB = [] := by
    intro l hl
    cases l with
    | nil => rfl
    | cons a t =>
      rw [List.takeWhile_cons, if_neg (by simp [hl a (by simp)])]
  rcases hd : s.dropWhile isSpaceB with _ | ⟨c, rest⟩
  · simp only [atoi, hd]
  · have hcrest : ∀ x ∈ c :: rest, isDigitB x = false := hd ▸ hsub
    simp only [atoi, hd]
    by_cases h45 : c = 45
    · rw [if_pos h45, htake rest (fun x hx => hcrest x (by simp [hx]))]
      simp [digitsVal]
    · rw [if_neg h45]
      by_cases h43 : c = 43
      · rw [if_pos h43, htake rest (fun x hx => hcrest x (by simp [hx]))]
        simp [digitsVal]
      · rw [if_neg h43, htake (c :: rest) hcrest]
        simp [digitsVal]

/-- `getData` on a frame whose length field is in range reads the
`4 + bodyLength_` byte prefix of the buffer. -/
theorem getData_of_wf (m : Message) (hbl : m.bodyLength_ ≤ 512) :
    m.getData = m.data.take (4 + m.bodyLength_) := by
  unfold Message.getData
  simp only [header]
  rw [Nat.mod_eq_of_lt (by omega), toInt32_small (by omega), toSize_natCast (by omega)]

theorem getData_length_of_wf (m : Message) (hlen : m.data.length = 516)
    (hbl : m.bodyLength_ ≤ 512) :
    m.getData.length = 4 + m.bodyLength_ := by
  rw [getData_of_wf m hbl, List.length_take]
  omega

/-- `getBody` on a frame whose length field is in range returns the body
prefix of the buffer. -/
theorem getBody_of_wf (m : Message) (hlen : m.data.length = 516)
    (hbl : m.bodyLength_ ≤ 512) :
    m.getBody = some ((m.data.drop 4).take m.bodyLength_) := by
  unfold Message.getBody substr
  simp only [header]
  rw [if_neg (by rw [getData_length_of_wf m hlen hbl]; omega)]
  rw [getData_of_wf m hbl, List.drop_take, List.take_take]
  congr 2
  omega

/-! ### Concrete frames used as witnesses and counterexamples -/

/-- A received frame whose header bytes are `"  -1"`. -/
def negFrame : Message :=
  { data := [32, 32, 45, 49] ++ List.replicate 512 0, bodyLength_ := 0 }

/-- A received frame whose header bytes are `"9999"`. -/
def bigFrame : Message :=
  { data := [57, 57, 57, 57] ++ List.replicate 512 0, bodyLength_ := 0 }

/-- A received frame whose header bytes are all ASCII spaces. -/
def spacesFrame : Message :=
  { data := [32, 32, 32, 32] ++ List.replicate 512 65, bodyLength_ := 7 }

theorem getNewBodyLength_le_length (p : List Nat) : getNewBodyLength p ≤ p.length := by
  unfold getNewBodyLength maxBytes
  split <;> omega

/-- The buffer of a constructed frame keeps its fixed 516-byte capacity. -/
theorem mkMessage_data_length (junk p : List Nat) (hj : junk.length = 516) :
    (mkMessage junk p).data.length = 516 := by
  have hble := getNewBodyLength_le p
  have hblp := getNewBodyLength_le_length p
  have h4 := fmt4d_length_ge (toInt32 (getNewBodyLength p))
  rw [mkMessage_data]
  simp only [List.length_append, List.length_take, List.length_drop]
  omega

/-! ### Claim theorems -/

/-- C1: Round-trip identity. For every payload `p` with `len p ≤ 512`,
constructing a frame from `p` and then decoding its header succeeds, the
decoded `bodyLength_` equals `len p`, and the body view equals `p`.
(`junk` is the indeterminate initial content of the 516-byte buffer.) -/
theorem C1_round_trip (junk p : List Nat) (hj : junk.length = 516) (hp : p.length ≤ 512) :
    (mkMessage junk p).decodeHeader.1 = true
      ∧ (mkMessage junk p).decodeHeader.2.bodyLength_ = p.length
      ∧ (mkMessage junk p).decodeHeader.2.getBody = some p := by
  have hbl : getNewBodyLength p = p.length := getNewBodyLength_of_le p hp
  have hble := getNewBodyLength_le p
  have hH := fmt4d_take_length (toInt32 (getNewBodyLength p))
  rw [decode_mkMessage]
  refine ⟨rfl, hbl, ?_⟩
  show (Message.mk (mkMessage junk p).data (getNewBodyLength p)).getBody = some p
  rw [getBody_of_wf (Message.mk (mkMessage junk p).data (getNewBodyLength p))
    (mkMessage_data_length junk p hj) hble]
  show some ((((mkMessage junk p).data).drop 4).take (getNewBodyLength p)) = some p
  rw [mkMessage_data, drop_append_len0 _ _ _ hH,
    List.take_append_of_le_length (by rw [List.length_take]; omega),
    List.take_take]
  simp [hbl]

/-- C1 witness at the concrete payload `[104, 105]`. -/
theorem C1_round_trip_witness :
    (List.replicate 516 0).length = 516 ∧ ([104, 105] : List Nat).length ≤ 512
      ∧ ((mkMessage (List.replicate 516 0) [104, 105]).decodeHeader.1 = true
        ∧ (mkMessage (List.replicate 516 0) [104, 105]).decodeHeader.2.bodyLength_ = 2
        ∧ (mkMessage (List.replicate 516 0) [104, 105]).decodeHeader.2.getBody
            = some [104, 105]) :=
  ⟨by decide, by decide, C1_round_trip (List.replicate 516 0) [104, 105] (by decide) (by decide)⟩

/-- C5: Truncation law. For every payload `p` with `len p > 512`, the
constructor raises no error (it is total), sets `bodyLength_` to exactly
512, and the body region of the buffer holds exactly the first 512 bytes
of `p`. -/
theorem C5_truncation (junk p : List Nat) (hp : p.length > 512) :
    (mkMessage junk p).bodyLength_ = 512
      ∧ ((mkMessage junk p).data.drop 4).take 512 = p.take 512 := by
  have hbl := getNewBodyLength_of_gt p hp
  constructor
  · rw [mkMessage_bodyLength, hbl]
  · rw [mkMessage_data, drop_append_len0 _ _ _ (fmt4d_take_length _), hbl,
      List.take_append_of_le_length (by rw [List.length_take]; omega),
      List.take_take]
    simp

/-- C5 witness at a concrete 513-byte payload. -/
theorem C5_truncation_witness :
    (List.replicate 513 65 : List Nat).length > 512
      ∧ ((mkMessage (List.replicate 516 0) (List.replicate 513 65)).bodyLength_ = 512
        ∧ ((mkMessage (List.replicate 516 0) (List.replicate 513 65)).data.drop 4).take 512
            = (List.replicate 513 65 : List Nat).take 512) :=
  ⟨by decide, C5_truncation (List.replicate 516 0) (List.replicate 513 65) (by decide)⟩

/-- C2: the claimed invariant `bodyLength_ ≤ maxBytes` after every
operation is violated by the code: decoding the header bytes `"  -1"`
succeeds and stores `(size_t)(-1) = 2^64 - 1` in `bodyLength_`, which
exceeds `maxBytes`, contradicting the documented validation intent of
`decodeHeader`. -/
theorem C2_invariant_code_divergence :
    negFrame.decodeHeader.1 = true
      ∧ negFrame.decodeHeader.2.bodyLength_ = 2 ^ 64 - 1
      ∧ ¬ negFrame.decodeHeader.2.bodyLength_ ≤ maxBytes := by
  decide

/-- C3 counterexample: for the header bytes `"  -1"` the parsed value is
the negative `-1`, decode succeeds, but `bodyLength_` is not the literal
parsed value: the `int` → `size_t` assignment wraps it modulo `2^64`. -/
theorem C3_literal_value_counterexample :
    atoi (negFrame.data.take 4) = -1
      ∧ atoi (negFrame.data.take 4) ≤ 0
      ∧ negFrame.decodeHeader.1 = true
      ∧ ((negFrame.decodeHeader.2.bodyLength_ : Int) ≠ atoi (negFrame.data.take 4)) := by
  decide

/-- C3 amended: for every 4-byte header whose parsed value is negative or
zero, `decodeHeader` returns success and sets `bodyLength_` to the parsed
value reduced modulo `2^64` — exactly the literal value when it is zero,
and `2^64 + v` for a negative value `v`. -/
theorem C3_nonpositive_decode_amended (m : Message) (h : atoi (m.data.take 4) ≤ 0) :
    m.decodeHeader.1 = true
      ∧ (m.decodeHeader.2.bodyLength_ : Int) = atoi (m.data.take 4) % 2 ^ 64 := by
  unfold Message.decodeHeader
  simp only [header, maxBytes]
  rw [if_neg (by omega)]
  refine ⟨rfl, ?_⟩
  show ((toSize (atoi (m.data.take 4)) : Nat) : Int) = _
  unfold toSize
  exact Int.toNat_of_nonneg (Int.emod_nonneg _ (by norm_num))

/-- C3 amended witness at the concrete header `"  -1"`. -/
theorem C3_nonpositive_decode_amended_witness :
    atoi (negFrame.data.take 4) ≤ 0
      ∧ (negFrame.decodeHeader.1 = true
        ∧ (negFrame.decodeHeader.2.bodyLength_ : Int) = atoi (negFrame.data.take 4) % 2 ^ 64) :=
  ⟨by decide, C3_nonpositive_decode_amended negFrame (by decide)⟩

/-- C4: Decode rejection. For every frame whose parsed header value
exceeds 512, `decodeHeader` returns `false` (the model is total: no
exception path exists) and resets `bodyLength_` to 0; moreover decode
reports failure exactly when the parsed value exceeds 512. -/
theorem C4_decode_rejection (m : Message) :
    (atoi (m.data.take 4) > 512 →
      m.decodeHeader.1 = false ∧ m.decodeHeader.2.bodyLength_ = 0)
    ∧ (m.decodeHeader.1 = false ↔ atoi (m.data.take 4) > 512) := by
  unfold Message.decodeHeader
  simp only [header, maxBytes]
  split
  · rename_i h
    exact ⟨fun _ => ⟨rfl, rfl⟩, ⟨fun _ => h, fun _ => rfl⟩⟩
  · rename_i h
    exact ⟨fun hgt => absurd hgt h, ⟨fun hf => absurd hf (by simp), fun hgt => absurd hgt h⟩⟩

/-- C4 witness at the concrete header `"9999"`. -/
theorem C4_decode_rejection_witness :
    bigFrame.decodeHeader.1 = false ∧ bigFrame.decodeHeader.2.bodyLength_ = 0 :=
  (C4_decode_rejection bigFrame).1 (by decide)

/-- The header format the spec describes: the decimal digits of the
length, right-justified in 4 bytes, padded on the left with ASCII
spaces (byte 32), never zero-padded. -/
def specHeaderBytes (n : Nat) : List Nat :=
  List.replicate (4 - (natDecDigits n).length) 32 ++ natDecDigits n

/-- A frame whose length field is 512, used to instantiate C6. -/
def frame512 : Message := { data := List.replicate 516 48, bodyLength_ := 512 }

/-- A frame whose length field is 7 and whose buffer is well formed. -/
def wfFrame : Message := { data := [32, 32, 32, 55] ++ List.replicate 512 9, bodyLength_ := 7 }

/-- Two received frames agreeing on the 4 header bytes (`"  50"`) but
differing everywhere else, used to instantiate C10. -/
def twinA : Message := { data := [32, 32, 53, 48] ++ List.replicate 512 1, bodyLength_ := 0 }

/-- Second frame of the pair for C10. -/
def twinB : Message := { data := [32, 32, 53, 48] ++ List.replicate 512 2, bodyLength_ := 99 }

/-- C6: Header format. For every `bodyLength_` in `[0, 9999]`,
`encodeHeader` overwrites exactly the 4 header bytes with the decimal
digits right-justified and space-padded on the left (never zero-padded);
in particular the field for 0 is `"   0"`, for 7 is `"   7"` and for 512
is `" 512"`. -/
theorem C6_header_format (m : Message) (h : m.bodyLength_ ≤ 9999) :
    (m.encodeHeader.data = specHeaderBytes m.bodyLength_ ++ m.data.drop 4
      ∧ (specHeaderBytes m.bodyLength_).length = 4)
    ∧ specHeaderBytes 0 = [32, 32, 32, 48]
    ∧ specHeaderBytes 7 = [32, 32, 32, 55]
    ∧ specHeaderBytes 512 = [32, 53, 49, 50] := by
  have hlen : (natDecDigits m.bodyLength_).length ≤ 4 :=
    natDecDigits_length_le 4 _ (by norm_num; omega) (by omega)
  refine ⟨⟨?_, ?_⟩, by decide, by decide, by decide⟩
  · rw [encodeHeader_data, toInt32_small (by omega), fmt4d_nat_eq _ h]
    rfl
  · unfold specHeaderBytes
    simp only [List.length_append, List.length_replicate]
    omega

/-- C6 witness at the concrete length 512. -/
theorem C6_header_format_witness :
    frame512.bodyLength_ ≤ 9999
      ∧ ((frame512.encodeHeader.data = specHeaderBytes frame512.bodyLength_
            ++ frame512.data.drop 4
          ∧ (specHeaderBytes frame512.bodyLength_).length = 4)
        ∧ specHeaderBytes 0 = [32, 32, 32, 48]
        ∧ specHeaderBytes 7 = [32, 32, 32, 55]
        ∧ specHeaderBytes 512 = [32, 53, 49, 50]) :=
  ⟨by decide, C6_header_format frame512 (by decide)⟩

/-- C7: Non-numeric header tolerance. A frame whose 4 header bytes are
all ASCII spaces decodes successfully with length 0 and an empty body
view; more generally any header region holding no ASCII digit parses as
0 and decodes successfully with `bodyLength_ = 0`. -/
theorem C7_non_numeric_tolerance :
    (∀ m : Message, m.data.take 4 = [32, 32, 32, 32] → 4 ≤ m.data.length →
      m.decodeHeader.1 = true ∧ m.decodeHeader.2.bodyLength_ = 0
        ∧ m.decodeHeader.2.getBody = some [])
    ∧ (∀ m : Message, (∀ c ∈ m.data.take 4, isDigitB c = false) →
      m.decodeHeader.1 = true ∧ m.decodeHeader.2.bodyLength_ = 0) := by
  have hgen : ∀ m : Message, atoi (m.data.take 4) = 0 →
      m.decodeHeader = (true, { m with bodyLength_ := 0 }) := by
    intro m h0
    unfold Message.decodeHeader
    simp only [header, maxBytes]
    rw [h0, if_neg (by omega)]
    rfl
  constructor
  · intro m hhead hlen4
    have h0 : atoi (m.data.take 4) = 0 := by rw [hhead]; rfl
    rw [hgen m h0]
    refine ⟨rfl, rfl, ?_⟩
    show (Message.mk m.data 0).getBody = some []
    unfold Message.getBody substr Message.getData
    simp only [header]
    rw [show toSize (toInt32 ((4 + (0 : Nat)) % 2 ^ 64)) = 4 from rfl]
    rw [if_neg (by rw [List.length_take]; omega)]
    simp
  · intro m hm
    rw [hgen m (atoi_no_digits _ hm)]
    exact ⟨rfl, rfl⟩

/-- C7 witness at the concrete all-spaces header. -/
theorem C7_non_numeric_tolerance_witness :
    (spacesFrame.data.take 4 = [32, 32, 32, 32] ∧ 4 ≤ spacesFrame.data.length
      ∧ (spacesFrame.decodeHeader.1 = true ∧ spacesFrame.decodeHeader.2.bodyLength_ = 0
          ∧ spacesFrame.decodeHeader.2.getBody = some []))
    ∧ ((∀ c ∈ spacesFrame.data.take 4, isDigitB c = false)
      ∧ (spacesFrame.decodeHeader.1 = true ∧ spacesFrame.decodeHeader.2.bodyLength_ = 0)) :=
  ⟨⟨by decide, by decide, C7_non_numeric_tolerance.1 spacesFrame (by decide) (by decide)⟩,
   ⟨by decide, C7_non_numeric_tolerance.2 spacesFrame (by decide)⟩⟩

/-- C8: Idempotent re-decode. `decodeHeader` never modifies the byte
buffer (only the `bodyLength_` field), and decoding twice on the same
buffer returns the same boolean and the same state as decoding once. -/
theorem C8_idempotent_redecode (m : Message) :
    m.decodeHeader.2.data = m.data
      ∧ m.decodeHeader.2.decodeHeader = m.decodeHeader := by
  by_cases h : atoi (m.data.take header) > (maxBytes : Int)
  · have e : m.decodeHeader = (false, { m with bodyLength_ := 0 }) := by
      unfold Message.decodeHeader
      rw [if_pos h]
    rw [e]
    refine ⟨rfl, ?_⟩
    show Message.decodeHeader (Message.mk m.data 0) = _
    unfold Message.decodeHeader
    dsimp only
    rw [if_pos h]
  · have e : m.decodeHeader
        = (true, { m with bodyLength_ := toSize (atoi (m.data.take header)) }) := by
      unfold Message.decodeHeader
      rw [if_neg h]
    rw [e]
    refine ⟨rfl, ?_⟩
    show Message.decodeHeader (Message.mk m.data (toSize (atoi (m.data.take header)))) = _
    unfold Message.decodeHeader
    dsimp only
    rw [if_neg h]

/-- C9 counterexample: the frame reached by decoding the header `"  -1"`
has `bodyLength_ = 2^64 - 1`, and on it `getData` does NOT return
`header + bodyLength` bytes: the `size_t` sum wraps and only 3 bytes are
returned. -/
theorem C9_view_lengths_counterexample :
    ¬ (negFrame.decodeHeader.2.getData.length
        = 4 + negFrame.decodeHeader.2.bodyLength_) := by
  decide

/-- C9 amended: for every frame whose buffer has its fixed 516-byte
capacity and whose `bodyLength_` is at most 512 (the range the spec's
invariant promises), `getData` returns exactly `4 + bodyLength_` bytes —
the 4 header bytes followed by the `bodyLength_`-byte body prefix — and
`getBody` returns exactly those body bytes, empty when `bodyLength_ = 0`. -/
theorem C9_view_lengths (m : Message) (hlen : m.data.length = 516)
    (hbl : m.bodyLength_ ≤ 512) :
    m.getData.length = 4 + m.bodyLength_
      ∧ m.getData = m.data.take 4 ++ (m.data.drop 4).take m.bodyLength_
      ∧ m.getBody = some ((m.data.drop 4).take m.bodyLength_)
      ∧ (m.bodyLength_ = 0 → m.getBody = some []) := by
  refine ⟨getData_length_of_wf m hlen hbl, ?_, getBody_of_wf m hlen hbl, ?_⟩
  · rw [getData_of_wf m hbl, List.take_add]
  · intro h0
    rw [getBody_of_wf m hlen hbl, h0]
    simp

/-- C9 witness at a concrete well-formed frame of length 7. -/
theorem C9_view_lengths_witness :
    wfFrame.data.length = 516 ∧ wfFrame.bodyLength_ ≤ 512
      ∧ (wfFrame.getData.length = 4 + wfFrame.bodyLength_
        ∧ wfFrame.getData = wfFrame.data.take 4 ++ (wfFrame.data.drop 4).take wfFrame.bodyLength_
        ∧ wfFrame.getBody = some ((wfFrame.data.drop 4).take wfFrame.bodyLength_)
        ∧ (wfFrame.bodyLength_ = 0 → wfFrame.getBody = some [])) :=
  ⟨by decide, by decide, C9_view_lengths wfFrame (by decide) (by decide)⟩

/-- C10: the decode result depends only on the 4 header bytes: two
frames agreeing on their first 4 buffer bytes decode to the same boolean
and the same `bodyLength_`, whatever their body regions hold. -/
theorem C10_decode_header_only (m₁ m₂ : Message) (h : m₁.data.take 4 = m₂.data.take 4) :
    m₁.decodeHeader.1 = m₂.decodeHeader.1
      ∧ m₁.decodeHeader.2.bodyLength_ = m₂.decodeHeader.2.bodyLength_ := by
  unfold Message.decodeHeader
  simp only [header]
  rw [h]
  by_cases hc : atoi (m₂.data.take 4) > (maxBytes : Int)
  · rw [if_pos hc, if_pos hc]
    exact ⟨rfl, rfl⟩
  · rw [if_neg hc, if_neg hc]
    exact ⟨rfl, rfl⟩

/-- C10 witness at two concrete frames sharing the header `"  50"`. -/
theorem C10_decode_header_only_witness :
    twinA.data.take 4 = twinB.data.take 4
      ∧ (twinA.decodeHeader.1 = twinB.decodeHeader.1
        ∧ twinA.decodeHeader.2.bodyLength_ = twinB.decodeHeader.2.bodyLength_) :=
  ⟨by decide, C10_decode_header_only twinA twinB (by decide)⟩

end EchoPP
